import Mathlib

/-!
# Verification of the expense-analyzer core algorithms

A shallow embedding, in Lean 4, of the core data-processing functions of the
expense-analyzer web application:

* `src/lib/merge.ts` — content-hash based transaction deduplication / merge
* `src/lib/analyzer.ts` — rule-based categorization, category summaries,
  budget status
* `src/lib/parser.ts` — CSV delimiter detection (`detectDelimiter`,
  `removeSepHeader`)
* `src/lib/crypto.ts` — password-based encrypted backup envelope

Modelling conventions:

* JavaScript numbers are modelled as exact rationals (`ℚ`); `number | null`
  fields become `Option ℚ`.
* JavaScript strings are Lean `String`s.  The ASCII-only case conversions
  `Char.toLower` / `Char.toUpper` model `toLowerCase()` / `toUpperCase()`
  (all keywords compared against are ASCII).
* `Date` values are modelled at calendar-day granularity (the spec requires
  no time-of-day semantics); a runtime value that may be either a `Date`
  object or a string (as produced by JSON round-trips) is modelled by the
  sum type `PurchaseDate`.
* The Web-platform cryptographic primitives (`crypto.subtle`, `btoa`,
  `atob`, `TextEncoder`) are not code of this repository; they are passed
  to the embedded vault as an explicit `CryptoPrims` record, and theorems
  assume only their documented contracts (e.g. that AES-GCM decryption
  inverts encryption under the same key and IV).
-/

/-! ## JavaScript string helpers -/

/-- The ASCII whitespace class of the JavaScript `\s`, `trim()` and friends
(space, tab, newline, carriage return, form feed, vertical tab).
Non-ASCII whitespace code points are not modelled. -/
def jsWs (c : Char) : Bool :=
  c = ' ' || c = '\t' || c = '\n' || c = '\x0d' || c = '\x0c' || c = '\x0b'

/-- Model of `String.prototype.trim()`: strip leading and trailing whitespace. -/
def jsTrim (s : String) : String :=
  String.mk (((s.toList.dropWhile jsWs).reverse.dropWhile jsWs).reverse)

/-- Model of `String.prototype.toLowerCase()` (ASCII range). -/
def jsToLower (s : String) : String :=
  String.mk (s.toList.map Char.toLower)

/-- Model of `String.prototype.toUpperCase()` (ASCII range). -/
def jsToUpper (s : String) : String :=
  String.mk (s.toList.map Char.toUpper)

/-- One step of the global whitespace-run replacement: collapse every maximal run of
whitespace characters to a single space. -/
def collapseWs : List Char → List Char
  | [] => []
  | [c] => if jsWs c then [' '] else [c]
  | a :: b :: t =>
    if jsWs a then
      if jsWs b then collapseWs (b :: t) else ' ' :: collapseWs (b :: t)
    else a :: collapseWs (b :: t)

/-- Whether the second list starts with the first (helper for the substring check). -/
def leadsWith : List Char → List Char → Bool
  | [], _ => true
  | _ :: _, [] => false
  | a :: as, b :: bs => a = b && leadsWith as bs

/-- Whether `sub` occurs contiguously inside the second list (helper for `jsIncludes`). -/
def hasSub (sub : List Char) : List Char → Bool
  | [] => leadsWith sub []
  | c :: t => leadsWith sub (c :: t) || hasSub sub t

/-- Model of `String.prototype.includes`: substring containment. -/
def jsIncludes (hay sub : String) : Bool :=
  hasSub sub.toList hay.toList

/-! ## Dates and amounts -/

/-- A calendar day (`Date` at day granularity: the parser constructs dates
from `DD.MM.YYYY` with no time component, and the spec requires no
time-of-day semantics). -/
structure CalDate where
  year : Nat
  month : Nat
  day : Nat
deriving DecidableEq, Repr

/-- Decimal digits of `n`, most significant first (`fuel` bounds the
recursion depth; any `fuel > log₁₀ n` gives the exact digits). -/
def digitsAux : Nat → Nat → List Char
  | 0, _ => []
  | fuel + 1, n =>
    if n < 10 then [Char.ofNat (48 + n)]
    else digitsAux fuel (n / 10) ++ [Char.ofNat (48 + n % 10)]

/-- Decimal rendering of a natural number. -/
def natToStr (n : Nat) : String :=
  String.mk (digitsAux (n + 1) n)

/-- Left-pad the decimal rendering of `n` with zeros to width 2. -/
def pad2 (n : Nat) : String :=
  if n < 10 then "0" ++ natToStr n else natToStr n

/-- Left-pad the decimal rendering of `n` with zeros to width 4. -/
def pad4 (n : Nat) : String :=
  if n < 10 then "000" ++ natToStr n
  else if n < 100 then "00" ++ natToStr n
  else if n < 1000 then "0" ++ natToStr n
  else natToStr n

/-- Model of the date part of `toISOString()` — the `YYYY-MM-DD` rendering of a day. -/
def isoDayStr (d : CalDate) : String :=
  pad4 d.year ++ "-" ++ pad2 d.month ++ "-" ++ pad2 d.day

/-- A sort key monotone in calendar order (models `Date.getTime()`
comparisons between day-granularity dates). -/
def calKey (d : CalDate) : Nat :=
  d.year * 10000 + d.month * 100 + d.day

/-- A runtime purchase-date value: either a structured `Date` or a string
(e.g. after an analysis has been JSON-serialized and re-read), as
discriminated by the `instanceof Date` checks in `merge.ts`. -/
inductive PurchaseDate where
  | date (d : CalDate)
  | str (s : String)
deriving DecidableEq, Repr

/-- Parse a decimal numeral; `none` on empty or non-digit input. -/
def natOfDigits : List Char → Option Nat
  | [] => none
  | cs => cs.foldl (fun acc c =>
      match acc with
      | none => none
      | some n => if c.isDigit then some (n * 10 + (c.toNat - 48)) else none)
      (some 0)

/-- Sort key of `new Date(x).getTime()` as used by the merge sort.  For a
structured date it is `calKey`; for a string, only the `YYYY-MM-DD` ISO
day form is modelled (the only string form that occurs, per the tests);
anything else maps to `0`.  No claim depends on the order of the sorted
`merged` list, only on its length, which is independent of this key. -/
def purchaseKey : PurchaseDate → Nat
  | .date d => calKey d
  | .str s =>
    match s.splitOn "-" with
    | [y, m, d] =>
      match natOfDigits y.toList, natOfDigits m.toList, natOfDigits d.toList with
      | some yn, some mn, some dn => calKey ⟨yn, mn, dn⟩
      | _, _, _ => 0
    | _ => 0

/-- Model of `Number.prototype.toFixed(2)`: render a rational with exactly two
decimal places (round to nearest, ties away from zero on the absolute
value, sign prepended — as specified by ECMA-262 for `toFixed`). -/
def toFixed2 (q : ℚ) : String :=
  let rounded : ℚ → Nat := fun r => (Int.toNat ⌊r * 100 + 1 / 2⌋)
  if q < 0 then
    let n := rounded (-q)
    "-" ++ natToStr (n / 100) ++ "." ++ pad2 (n % 100)
  else
    let n := rounded q
    natToStr (n / 100) ++ "." ++ pad2 (n % 100)

/-! ## Transactions -/

/-- The `Transaction` record of `types.ts`.  `manualCategory` models the
optional override field of `TransactionWithCategory` (analyzer.ts): `none`
is a plain `Transaction`, so this single structure covers the
`Transaction | TransactionWithCategory` union accepted by
`categorizeTransaction`. -/
structure Transaction where
  accountNumber : String
  cardNumber : String
  accountHolder : String
  purchaseDate : PurchaseDate
  bookingText : String
  sector : String
  amount : ℚ
  originalCurrency : String
  rate : Option ℚ
  currency : String
  debit : Option ℚ
  credit : Option ℚ
  bookedDate : PurchaseDate
  manualCategory : Option String
deriving DecidableEq, Repr

/-- Model of `t.debit || 0` (and likewise for credit): null coalesces to zero. -/
def orZero : Option ℚ → ℚ
  | none => 0
  | some q => q

/-- Amount component of the content hash: `toFixed(2)` of the value, with null (and absent) amounts rendered as "0.00". -/
def fixedOrZero : Option ℚ → String
  | none => "0.00"
  | some q => toFixed2 q

/-! ## merge.ts -/

/-- Embedding of `getTransactionHash` (merge.ts:7-20): the composite duplicate-detection
key `date|normalizedText|debit|credit`.  The date component is the ISO day
string for a structured `Date`, and `String(purchaseDate)` — the string
unchanged — for a string-typed date. -/
def getTransactionHash (t : Transaction) : String :=
  let dateStr := match t.purchaseDate with
    | .date d => isoDayStr d
    | .str s => s
  let normalizedText := String.mk (collapseWs (jsTrim (jsToLower t.bookingText)).toList)
  let debit := fixedOrZero t.debit
  let credit := fixedOrZero t.credit
  dateStr ++ "|" ++ normalizedText ++ "|" ++ debit ++ "|" ++ credit

/-- The statistics block of a `MergeResult`. -/
structure MergeStats where
  originalCount : Nat
  newCount : Nat
  mergedCount : Nat
  duplicatesFound : Nat
deriving DecidableEq, Repr

/-- Embedding of `MergeResult` (merge.ts:22-32). -/
structure MergeResult where
  merged : List Transaction
  newTransactions : List Transaction
  duplicates : List Transaction
  stats : MergeStats
deriving DecidableEq, Repr

/-- The `incoming.forEach` classification loop of `mergeTransactions`
(merge.ts:51-59): `hashes` is the hash set (its JS `Set` modelled as a list
with membership), returning the accepted and duplicate sublists in input
order. -/
def mergeLoop (hashes : List String) : List Transaction → List Transaction × List Transaction
  | [] => ([], [])
  | t :: rest =>
    let h := getTransactionHash t
    if h ∈ hashes then
      let (ns, ds) := mergeLoop hashes rest
      (ns, t :: ds)
    else
      let (ns, ds) := mergeLoop (h :: hashes) rest
      (t :: ns, ds)

/-- Comparator-order of the merge sort: `dateA.getTime() - dateB.getTime()`
ascending (merge.ts:62-66); `List.mergeSort` is stable, matching the stable
ECMAScript `Array.prototype.sort`. -/
def purchaseLe (a b : Transaction) : Bool :=
  purchaseKey a.purchaseDate ≤ purchaseKey b.purchaseDate

/-- Embedding of `mergeTransactions` (merge.ts:37-79). -/
def mergeTransactions (existing incoming : List Transaction) : MergeResult :=
  let existingHashes := existing.map getTransactionHash
  let (newTransactions, duplicates) := mergeLoop existingHashes incoming
  let merged := (existing ++ newTransactions).mergeSort purchaseLe
  { merged := merged
    newTransactions := newTransactions
    duplicates := duplicates
    stats :=
      { originalCount := existing.length
        newCount := incoming.length
        mergedCount := merged.length
        duplicatesFound := duplicates.length } }

/-! ## analyzer.ts — categorization -/

/-- The fixed closed category vocabulary (`categories.ts`, `CATEGORIES`). -/
def CATEGORIES : List String :=
  [ "Restaurants & Dining"
  , "Groceries"
  , "Transportation"
  , "Travel & Accommodation"
  , "Shopping"
  , "Health & Beauty"
  , "Digital Services"
  , "Insurance & Financial"
  , "Entertainment"
  , "Fuel"
  , "Fitness & Sports"
  , "Utilities & Telecom"
  , "Professional Services"
  , "Government & Taxes"
  , "Crypto & Investments"
  , "Education"
  , "Housing"
  , "Income"
  , "Other" ]

/-- Embedding of `SECTOR_CATEGORY_MAP` (analyzer.ts:9-96): exact sector-label lookup
table; property access `SECTOR_CATEGORY_MAP[sector]` is `List.lookup`. -/
def SECTOR_CATEGORY_MAP : List (String × String) :=
  [ ("Restaurants", "Restaurants & Dining")
  , ("Fast-Food Restaurants", "Restaurants & Dining")
  , ("Fast Food Restaurant", "Restaurants & Dining")
  , ("Bakeries", "Restaurants & Dining")
  , ("Delivery", "Restaurants & Dining")
  , ("Caterers", "Restaurants & Dining")
  , ("Hotels", "Travel & Accommodation")
  , ("Hotel Indigo", "Travel & Accommodation")
  , ("Travel agencies", "Travel & Accommodation")
  , ("Surcharge abroad", "Travel & Accommodation")
  , ("Airlines", "Travel & Accommodation")
  , ("Cathay", "Travel & Accommodation")
  , ("Swiss International Air Lines", "Travel & Accommodation")
  , ("United", "Travel & Accommodation")
  , ("Rent-a-car", "Travel & Accommodation")
  , ("Car Rental Company", "Travel & Accommodation")
  , ("Duty free shop", "Travel & Accommodation")
  , ("Grocery stores", "Groceries")
  , ("Supermarkets", "Groceries")
  , ("Commuter transportation", "Transportation")
  , ("Public transport", "Transportation")
  , ("Taxi services", "Transportation")
  , ("Taxicabs", "Transportation")
  , ("Parking", "Transportation")
  , ("UBER", "Transportation")
  , ("Passenger railways", "Transportation")
  , ("Gasoline service stations", "Fuel")
  , ("Clothing store", "Shopping")
  , ("Clothing - sports", "Shopping")
  , ("Cosmetic stores", "Shopping")
  , ("Department stores", "Shopping")
  , ("Retail stores", "Shopping")
  , ("Retail business", "Shopping")
  , ("Catalog Merchant", "Shopping")
  , ("Bike", "Shopping")
  , ("Books", "Shopping")
  , ("Book stores", "Shopping")
  , ("Electronics Stores", "Shopping")
  , ("Leather goods", "Shopping")
  , ("Shoe stores", "Shopping")
  , ("Florists", "Shopping")
  , ("Precious metals, Metals, Watches and Jewelry (B2B)", "Shopping")
  , ("Pharmacies", "Health & Beauty")
  , ("Barber or beauty shops", "Health & Beauty")
  , ("Healthcare", "Health & Beauty")
  , ("Medical services", "Health & Beauty")
  , ("Doctors and Physicians", "Health & Beauty")
  , ("Optician", "Health & Beauty")
  , ("Wellness", "Health & Beauty")
  , ("Digital goods", "Digital Services")
  , ("Subscriptions", "Digital Services")
  , ("Online services", "Digital Services")
  , ("Software", "Digital Services")
  , ("Computer software stores", "Digital Services")
  , ("Telegraph services", "Digital Services")
  , ("Data processing services", "Digital Services")
  , ("Direct marketing insurance services", "Insurance & Financial")
  , ("Insurance", "Insurance & Financial")
  , ("Financial services", "Insurance & Financial")
  , ("Banking fees", "Insurance & Financial")
  , ("Bank interest", "Insurance & Financial")
  , ("Cinema", "Entertainment")
  , ("Repair Shops", "Professional Services")
  , ("Government Services", "Government & Taxes")
  , ("Advertising services", "Professional Services")
  , ("Business services", "Professional Services")
  , ("Professional Services - Not Elsewhere Classified", "Professional Services") ]

/-- The crypto-exchange keyword check on the upper-cased booking text
(analyzer.ts:110). -/
def cryptoKeywordHit (bookingText : String) : Bool :=
  jsIncludes (jsToUpper bookingText) "COINBASE" ||
  jsIncludes (jsToUpper bookingText) "KRAKEN" ||
  jsIncludes (jsToUpper bookingText) "BINANCE"

/-- The booking-text and sector-substring fallback chain of
`categorizeTransaction` (analyzer.ts:119-228): everything after a sector
misses the exact lookup table, in source order.  `text` is the lower-cased
booking text, `sector` the trimmed sector, `upperSector` its upper-casing. -/
def keywordRules (text sector upperSector : String) : String :=
  if jsIncludes text "uber eats" || jsIncludes text "ubereats" then
    "Restaurants & Dining"
  else if jsIncludes text "deliveroo" || jsIncludes text "just eat" ||
      jsIncludes text "doordash" || jsIncludes text "eat.ch" then
    "Restaurants & Dining"
  else if jsIncludes text "booking.com" || jsIncludes text "airbnb" ||
      jsIncludes text "hotels.com" || jsIncludes text "expedia" then
    "Travel & Accommodation"
  else if jsIncludes upperSector "SURCHARGE ABROAD" then
    "Travel & Accommodation"
  else if jsIncludes upperSector "COM/BILL" || jsIncludes upperSector "APPLE" ||
      jsIncludes upperSector "ITUNES" then
    "Digital Services"
  else if jsIncludes upperSector "RESTAURANT" || jsIncludes upperSector "FOOD" then
    "Restaurants & Dining"
  else if jsIncludes upperSector "GROCERY" || jsIncludes upperSector "SUPERMARKET" then
    "Groceries"
  else if jsIncludes upperSector "TRANSPORT" || jsIncludes upperSector "TAXI" then
    "Transportation"
  else if jsIncludes upperSector "HOTEL" || jsIncludes upperSector "AIRLINE" then
    "Travel & Accommodation"
  else if jsIncludes upperSector "ENTERTAINMENT" || jsIncludes upperSector "CINEMA" ||
      jsIncludes upperSector "THEATER" || jsIncludes upperSector "CONCERT" ||
      jsIncludes upperSector "STREAMING" || jsIncludes upperSector "GAMING" ||
      jsIncludes upperSector "MOVIE" then
    "Entertainment"
  else if jsIncludes upperSector "SHOP" || jsIncludes upperSector "RETAIL" ||
      jsIncludes upperSector "STORE" then
    "Shopping"
  else if jsIncludes upperSector "HEALTH" || jsIncludes upperSector "MEDICAL" ||
      jsIncludes upperSector "PHARMA" then
    "Health & Beauty"
  else if jsIncludes upperSector "INSURANCE" then
    "Insurance & Financial"
  else if jsIncludes text "swisscom" || jsIncludes text "sunrise" ||
      jsIncludes text "salt" then
    "Utilities & Telecom"
  else if jsIncludes text "cinema" || jsIncludes text "movie" ||
      jsIncludes text "theatre" || jsIncludes text "theater" ||
      jsIncludes text "concert" || jsIncludes text "festival" ||
      jsIncludes text "event" || jsIncludes text "ticket" ||
      jsIncludes text "show" || jsIncludes text "game store" ||
      jsIncludes text "steam" || jsIncludes text "playstation" ||
      jsIncludes text "xbox" || jsIncludes text "nintendo" then
    "Entertainment"
  else if jsIncludes text "spotify" || jsIncludes text "netflix" ||
      jsIncludes text "youtube premium" || jsIncludes text "youtube music" ||
      jsIncludes text "disney+" || jsIncludes text "hbo" ||
      jsIncludes text "prime video" || jsIncludes text "apple music" ||
      jsIncludes text "soundcloud" then
    "Entertainment"
  else if jsIncludes text "gym" || jsIncludes text "fitness" then
    "Fitness & Sports"
  else if jsIncludes upperSector "QR PAYMENT" || sector = "A" || sector = "" then
    "Other"
  else
    "Other"

/-- The body of `categorizeTransaction` after the manual-override check
(analyzer.ts:104-228): the crypto-keyword check, then the exact sector
lookup, then the `keywordRules` fallback chain. -/
def categorizeAuto (t : Transaction) : String :=
  let text := jsToLower t.bookingText
  let sector := jsTrim t.sector
  let upperSector := jsToUpper sector
  if cryptoKeywordHit t.bookingText then "Crypto & Investments"
  else
    match SECTOR_CATEGORY_MAP.lookup sector with
    | some c => c
    | none => keywordRules text sector upperSector

/-- Embedding of `categorizeTransaction` (analyzer.ts:98-229).  A truthy
`manualCategory` (present and non-empty) is returned outright; otherwise
the rule chain of `categorizeAuto` decides. -/
def categorizeTransaction (t : Transaction) : String :=
  match t.manualCategory with
  | some c => if c = "" then categorizeAuto t else c
  | none => categorizeAuto t


/-! ## analyzer.ts — budget status -/

/-- The `Budget` record of `types.ts` (creation date and storage key are
irrelevant to the status computation and not read by it). -/
structure Budget where
  id : Option Nat
  category : String
  amount : ℚ
deriving DecidableEq, Repr

/-- One row of the `calculateBudgetStatus` result (`BudgetWithSpending`);
`status` holds one of the four tier strings of the `BudgetStatus` union. -/
structure BudgetWithSpending where
  budget : Budget
  spent : ℚ
  remaining : ℚ
  percentUsed : ℚ
  status : String
deriving DecidableEq, Repr

/-- Model of the map read with zero default: per-category debit sums
of the target month, modelled as an association list. -/
def spendingLookup (categorySpending : List (String × ℚ)) (category : String) : ℚ :=
  match categorySpending.lookup category with
  | some q => q
  | none => 0

/-- The per-budget body of `calculateBudgetStatus` (analyzer.ts:371-393):
spent, remaining, percent used, and the tier chosen by the
`>100 / ≥75 / ≥50 / else` chain.  `categorySpending` is the map of summed
debits for the evaluation month built on analyzer.ts:362-368. -/
def calculateBudgetEntry (categorySpending : List (String × ℚ)) (budget : Budget) :
    BudgetWithSpending :=
  let spent := spendingLookup categorySpending budget.category
  let remaining := budget.amount - spent
  let percentUsed := if 0 < budget.amount then spent / budget.amount * 100 else 0
  let status :=
    if 100 < percentUsed then "over"
    else if 75 ≤ percentUsed then "warning"
    else if 50 ≤ percentUsed then "early"
    else "healthy"
  { budget := budget, spent := spent, remaining := remaining
  , percentUsed := percentUsed, status := status }

/-! ## analyzer.ts — category summaries of `analyzeExpenses` -/

/-- Embedding of `CategorySummary` of `types.ts`. -/
structure CategorySummary where
  category : String
  totalSpent : ℚ
  count : Nat
  percentage : ℚ
  averageTransaction : ℚ
  transactions : List Transaction
deriving DecidableEq, Repr

/-- The `expenses` sublist (analyzer.ts:240): transactions with a positive debit. -/
def expensesOf (transactions : List Transaction) : List Transaction :=
  transactions.filter (fun t => 0 < orZero t.debit)

/-- Insertion into the category `Map` (analyzer.ts:246-255): a JS `Map`
iterates in key-insertion order and `push` appends, so a new key goes to
the end and the bucket of an existing key grows at its tail. -/
def groupInsert (acc : List (String × List Transaction)) (key : String)
    (t : Transaction) : List (String × List Transaction) :=
  match acc with
  | [] => [(key, [t])]
  | (k, ts) :: rest =>
    if k = key then (k, ts ++ [t]) :: rest
    else (k, ts) :: groupInsert rest key t

/-- The `expenses.forEach` grouping loop (analyzer.ts:247-255), keyed by
`categorizeTransaction`. -/
def groupByCategory (expenses : List Transaction) : List (String × List Transaction) :=
  expenses.foldl (fun acc t => groupInsert acc (categorizeTransaction t) t) []

/-- One summary before the percentage fix-up (analyzer.ts:258-268): the
initial `percentage` divides the category total by itself (or by 1 when
the total is not positive). -/
def initialSummary (group : String × List Transaction) : CategorySummary :=
  let categoryTotalSpent := (group.2.map (fun t => orZero t.debit)).sum
  { category := group.1
  , totalSpent := categoryTotalSpent
  , count := group.2.length
  , percentage := categoryTotalSpent / (if 0 < categoryTotalSpent then categoryTotalSpent else 1) * 100
  , averageTransaction := categoryTotalSpent / (group.2.length : ℚ)
  , transactions := group.2 }

/-- The `categorySummaries` pipeline of `analyzeExpenses` with no override
map (analyzer.ts:246-274): group the positive-debit transactions by
category, summarize, sort descending by total spent (stable, like
`Array.prototype.sort`), then overwrite each `percentage` with
`totalSpent / totalCategorySpent * 100` (or `0` when the summed total is
not positive). -/
def categorySummariesOf (transactions : List Transaction) : List CategorySummary :=
  let sorted := ((groupByCategory (expensesOf transactions)).map initialSummary).mergeSort
    (fun a b => b.totalSpent ≤ a.totalSpent)
  let totalCategorySpent := (sorted.map CategorySummary.totalSpent).sum
  sorted.map (fun c =>
    { c with percentage :=
        if 0 < totalCategorySpent then c.totalSpent / totalCategorySpent * 100 else 0 })

/-! ## parser.ts — delimiter detection -/

/-- A character the JavaScript regex `.` (no `s` flag) can match: anything
but a line terminator. -/
def jsDot (c : Char) : Bool :=
  !(c = '\n' || c = '\x0d' || c.toNat = 0x2028 || c.toNat = 0x2029)

/-- The anchored case-insensitive regex `/^sep=(.)\r?\n/i` of
`detectDelimiter` / `removeSepHeader` (parser.ts:92, 109): on a match,
returns the captured delimiter character and the content following the
consumed header line. -/
def sepCapture : List Char → Option (Char × List Char)
  | s :: e :: p :: eq :: x :: rest =>
    if s.toLower = 's' && e.toLower = 'e' && p.toLower = 'p' && eq = '=' && jsDot x then
      match rest with
      | '\n' :: tail => some (x, tail)
      | '\x0d' :: '\n' :: tail => some (x, tail)
      | _ => none
    else none
  | _ => none

/-- Model of splitting on a newline at the character level (JS `split` with a
one-character separator). -/
def splitNl : List Char → List (List Char)
  | [] => [[]]
  | c :: t =>
    if c = '\n' then [] :: splitNl t
    else
      match splitNl t with
      | l :: ls => (c :: l) :: ls
      | [] => [[c]]

/-- Model of joining lines with a newline. -/
def joinNl : List (List Char) → List Char
  | [] => []
  | [l] => l
  | l :: ls => l ++ '\n' :: joinNl ls

/-- Occurrences of `c` in `s` (`(s.match(/c/g) || []).length`). -/
def charCount (c : Char) (s : List Char) : Nat :=
  s.countP (· = c)

/-- Embedding of `detectDelimiter` (parser.ts:90-103): honor a `sep=X` header; otherwise
count `;` against `,` over the first five lines and pick `;` exactly when
semicolons strictly outnumber commas. -/
def detectDelimiter (content : String) : String :=
  match sepCapture content.toList with
  | some (x, _) => String.mk [x]
  | none =>
    let firstLines := joinNl ((splitNl content.toList).take 5)
    let semicolonCount := charCount ';' firstLines
    let commaCount := charCount ',' firstLines
    if commaCount < semicolonCount then ";" else ","

/-- Embedding of `removeSepHeader` (parser.ts:108-110): strip the `sep=X` line when the
anchored regex matches; otherwise return the content unchanged. -/
def removeSepHeader (content : String) : String :=
  match sepCapture content.toList with
  | some (_, rest) => String.mk rest
  | none => content

/-! ## crypto.ts — the encrypted backup vault

The Web-platform primitives used by `crypto.ts` (`crypto.subtle.deriveKey`
with PBKDF2-SHA-256 at 100 000 iterations, AES-GCM encrypt/decrypt,
SHA-256 digest, `TextEncoder`/`TextDecoder` UTF-8 codecs, and the
`btoa`/`atob` base64 codecs) are external to the repository; the embedded
vault takes them as an explicit record.  A byte is `Fin 256`. -/

/-- A byte of an `ArrayBuffer` / `Uint8Array`. -/
abbrev Byte := Fin 256

/-- The platform primitives consumed by `crypto.ts`.  Randomness
(`crypto.getRandomValues`) is modelled by passing the sampled salt and IV
to `encryptData` as arguments. -/
structure CryptoPrims where
  /-- PBKDF2-SHA-256 (100 000 iterations) key derivation:
  password and salt to the bytes of the 256-bit AES key. -/
  deriveKey : String → List Byte → List Byte
  /-- AES-GCM encryption: key, IV, plaintext bytes to ciphertext-plus-tag. -/
  aesGcmEncrypt : List Byte → List Byte → List Byte → List Byte
  /-- AES-GCM decryption: `none` models the rejection (thrown
  `OperationError`) on a wrong key, corrupted ciphertext or tampered IV. -/
  aesGcmDecrypt : List Byte → List Byte → List Byte → Option (List Byte)
  /-- SHA-256 digest of a byte list. -/
  sha256 : List Byte → List Byte
  /-- UTF-8 encoding of a string (TextEncoder). -/
  utf8Encode : String → List Byte
  /-- UTF-8 decoding of bytes (TextDecoder; total — the default decoder replaces
  invalid sequences rather than throwing). -/
  utf8Decode : List Byte → String
  /-- Base64 encoding of a binary string (btoa). -/
  btoaFn : String → String
  /-- Base64 decoding back to a binary string (atob). -/
  atobFn : String → String

/-- The byte-to-binary-string loop of `arrayBufferToBase64`
(crypto.ts:54-61): each byte becomes the character with its code. -/
def binaryStringOfBytes (bs : List Byte) : String :=
  String.mk (bs.map (fun b => Char.ofNat b.val))

/-- The char-code loop of `base64ToArrayBuffer` (crypto.ts:64-71):
`charCodeAt` truncated to a byte (the codes in `atob` output are < 256). -/
def bytesOfBinaryString (s : String) : List Byte :=
  s.toList.map (fun c => (⟨c.toNat % 256, Nat.mod_lt _ (by norm_num)⟩ : Byte))

/-- Embedding of `arrayBufferToBase64` (crypto.ts:54-61). -/
def arrayBufferToBase64 (P : CryptoPrims) (bs : List Byte) : String :=
  P.btoaFn (binaryStringOfBytes bs)

/-- Embedding of `base64ToArrayBuffer` (crypto.ts:64-71). -/
def base64ToArrayBuffer (P : CryptoPrims) (s : String) : List Byte :=
  bytesOfBinaryString (P.atobFn s)

/-- Embedding of `generateChecksum` (crypto.ts:74-79): base64 of the SHA-256 of the
UTF-8 bytes, truncated to 16 characters (`slice(0, 16)`). -/
def generateChecksum (P : CryptoPrims) (data : String) : String :=
  String.mk ((arrayBufferToBase64 P (P.sha256 (P.utf8Encode data))).toList.take 16)

/-- Embedding of `EncryptedData` (crypto.ts:45-51): the versioned envelope. -/
structure EncryptedData where
  version : Int
  salt : String
  iv : String
  data : String
  checksum : String
deriving DecidableEq, Repr

/-- Embedding of `encryptData` (crypto.ts:84-107) with the freshly sampled salt and IV
passed in (crypto.ts:85-86 samples them per call). -/
def encryptData (P : CryptoPrims) (salt iv : List Byte) (plaintext password : String) :
    EncryptedData :=
  let key := P.deriveKey password salt
  let encryptedBuffer := P.aesGcmEncrypt key iv (P.utf8Encode plaintext)
  { version := 1
  , salt := arrayBufferToBase64 P salt
  , iv := arrayBufferToBase64 P iv
  , data := arrayBufferToBase64 P encryptedBuffer
  , checksum := generateChecksum P plaintext }

/-- Embedding of `decryptData` (crypto.ts:112-146).  The version gate precedes every
cryptographic step; a decryption rejection becomes the generic error of
the `catch` block, while the checksum mismatch thrown inside the `try` is
re-thrown distinctly. -/
def decryptData (P : CryptoPrims) (encrypted : EncryptedData) (password : String) :
    Except String String :=
  if encrypted.version ≠ 1 then .error "Unsupported backup version"
  else
    let salt := base64ToArrayBuffer P encrypted.salt
    let iv := base64ToArrayBuffer P encrypted.iv
    let encryptedData := base64ToArrayBuffer P encrypted.data
    let key := P.deriveKey password salt
    match P.aesGcmDecrypt key iv encryptedData with
    | none => .error "Incorrect password or corrupted data"
    | some decryptedBuffer =>
      let plaintext := P.utf8Decode decryptedBuffer
      if generateChecksum P plaintext ≠ encrypted.checksum then
        .error "Data integrity check failed"
      else
        .ok plaintext

/-- The validator `isValidEncryptedBackup` (crypto.ts:151-161) is a TypeScript shape
check on untyped JSON; in the typed embedding every `EncryptedData` is
well-shaped, so it needs no model and no claim mentions it. -/
def isValidEncryptedBackup (_ : EncryptedData) : Bool := true

/-! ## Concrete sample values used by witnesses and counterexamples -/

/-- A transaction literal with the given booking text, sector, amounts and
purchase date (the remaining fields are fixed neutral values; none of them
is read by the categorizer, the hash or the merge). -/
def sampleTx (bt sec : String) (pd : PurchaseDate) (debit credit : Option ℚ)
    (mc : Option String := none) : Transaction :=
  { accountNumber := "CH00 1234"
  , cardNumber := "XXXX 0001"
  , accountHolder := "A HOLDER"
  , purchaseDate := pd
  , bookingText := bt
  , sector := sec
  , amount := 0
  , originalCurrency := ""
  , rate := none
  , currency := "CHF"
  , debit := debit
  , credit := credit
  , bookedDate := pd
  , manualCategory := mc }

/-- A three-bytes-per-character fixed-width string codec: a concrete,
trivially invertible stand-in used only to exhibit platform-primitive
records satisfying the codec round-trip contracts. -/
def encode3 (s : String) : List Byte :=
  s.toList.flatMap (fun c =>
    [ (⟨c.toNat / 65536 % 256, Nat.mod_lt _ (by norm_num)⟩ : Byte)
    , (⟨c.toNat / 256 % 256, Nat.mod_lt _ (by norm_num)⟩ : Byte)
    , (⟨c.toNat % 256, Nat.mod_lt _ (by norm_num)⟩ : Byte) ])

/-- Inverse of `encode3`. -/
def decode3Aux : List Byte → List Char
  | a :: b :: c :: rest => Char.ofNat (a.val * 65536 + b.val * 256 + c.val) :: decode3Aux rest
  | _ => []

/-- Inverse of `encode3` on strings. -/
def decode3 (bs : List Byte) : String :=
  String.mk (decode3Aux bs)

/-- A concrete `CryptoPrims` record whose cipher is the identity on byte
lists and whose codecs are `encode3`/`decode3` and the identity: it
satisfies every platform contract assumed by the vault theorems, showing
those hypotheses are satisfiable. -/
def trivialPrims : CryptoPrims :=
  { deriveKey := fun _ _ => []
  , aesGcmEncrypt := fun _ _ m => m
  , aesGcmDecrypt := fun _ _ c => some c
  , sha256 := fun bs => bs
  , utf8Encode := encode3
  , utf8Decode := decode3
  , btoaFn := fun s => s
  , atobFn := fun s => s }

/-! ## Lemmas about the merge classification loop -/

theorem mergeLoop_nil (hashes : List String) : mergeLoop hashes [] = ([], []) := rfl

theorem mergeLoop_cons_mem {hashes : List String} {t : Transaction}
    (rest : List Transaction) (h : getTransactionHash t ∈ hashes) :
    mergeLoop hashes (t :: rest) =
      ((mergeLoop hashes rest).1, t :: (mergeLoop hashes rest).2) := by
  rcases hr : mergeLoop hashes rest with ⟨ns, ds⟩
  simp [mergeLoop, h, hr]

theorem mergeLoop_cons_not_mem {hashes : List String} {t : Transaction}
    (rest : List Transaction) (h : getTransactionHash t ∉ hashes) :
    mergeLoop hashes (t :: rest) =
      (t :: (mergeLoop (getTransactionHash t :: hashes) rest).1,
        (mergeLoop (getTransactionHash t :: hashes) rest).2) := by
  rcases hr : mergeLoop (getTransactionHash t :: hashes) rest with ⟨ns, ds⟩
  simp [mergeLoop, h, hr]

/-- When every incoming hash is already in the set, the loop accepts
nothing and reports the whole input as duplicates. -/
theorem mergeLoop_all_dup :
    ∀ (incoming : List Transaction) (hashes : List String),
      (∀ t ∈ incoming, getTransactionHash t ∈ hashes) →
      mergeLoop hashes incoming = ([], incoming) := by
  intro incoming
  induction incoming with
  | nil => intro hashes _; rfl
  | cons t rest ih =>
    intro hashes hmem
    rw [mergeLoop_cons_mem rest (hmem t (List.mem_cons_self t rest)),
      ih hashes (fun u hu => hmem u (List.mem_cons_of_mem t hu))]

/-- The loop splits its input into two order-preserving sublists whose
multiset union is the input. -/
theorem mergeLoop_partition :
    ∀ (incoming : List Transaction) (hashes : List String),
      ((mergeLoop hashes incoming).1).Sublist incoming ∧
      ((mergeLoop hashes incoming).2).Sublist incoming ∧
      incoming.Perm ((mergeLoop hashes incoming).1 ++ (mergeLoop hashes incoming).2) := by
  intro incoming
  induction incoming with
  | nil => intro hashes; exact ⟨List.Sublist.refl _, List.Sublist.refl _, List.Perm.refl _⟩
  | cons t rest ih =>
    intro hashes
    by_cases h : getTransactionHash t ∈ hashes
    · rw [mergeLoop_cons_mem rest h]
      obtain ⟨h1, h2, h3⟩ := ih hashes
      refine ⟨h1.cons t, h2.cons₂ t, ?_⟩
      exact (h3.cons t).trans List.perm_middle.symm
    · rw [mergeLoop_cons_not_mem rest h]
      obtain ⟨h1, h2, h3⟩ := ih (getTransactionHash t :: hashes)
      exact ⟨h1.cons₂ t, h2.cons t, h3.cons t⟩

/-! ## Claim C2 — merging a list into itself -/

/-- C2: for every transaction list `xs`, `mergeTransactions xs xs` returns
an empty `newTransactions` list and a `duplicates` list of length
`xs.length`: merging a list into itself adds nothing new and classifies
every incoming record as a duplicate. -/
theorem merge_self_no_new_all_duplicates (xs : List Transaction) :
    (mergeTransactions xs xs).newTransactions = [] ∧
    (mergeTransactions xs xs).duplicates.length = xs.length := by
  have h := mergeLoop_all_dup xs (xs.map getTransactionHash)
    (fun t ht => List.mem_map_of_mem getTransactionHash ht)
  simp [mergeTransactions, h]

/-! ## Claim C10 — the merge result partitions the incoming list -/

/-- C10: for every pair of input lists, every incoming transaction lands in
exactly one of `newTransactions` and `duplicates` (both are sublists of the
incoming list, so input order is preserved within each, and together they
are a permutation of it), and the reported statistics satisfy
`mergedCount = originalCount + newCount - duplicatesFound`. -/
theorem mergeTransactions_partitions (existing incoming : List Transaction) :
    ((mergeTransactions existing incoming).newTransactions).Sublist incoming ∧
    ((mergeTransactions existing incoming).duplicates).Sublist incoming ∧
    incoming.Perm ((mergeTransactions existing incoming).newTransactions ++
      (mergeTransactions existing incoming).duplicates) ∧
    (mergeTransactions existing incoming).stats.mergedCount +
      (mergeTransactions existing incoming).stats.duplicatesFound =
      (mergeTransactions existing incoming).stats.originalCount +
        (mergeTransactions existing incoming).stats.newCount ∧
    (mergeTransactions existing incoming).stats.mergedCount =
      (mergeTransactions existing incoming).stats.originalCount +
        (mergeTransactions existing incoming).stats.newCount -
        (mergeTransactions existing incoming).stats.duplicatesFound := by
  obtain ⟨h1, h2, h3⟩ := mergeLoop_partition incoming (existing.map getTransactionHash)
  rcases hm : mergeLoop (existing.map getTransactionHash) incoming with ⟨ns, ds⟩
  rw [hm] at h1 h2 h3
  have hlen : incoming.length = ns.length + ds.length := by
    simpa using h3.length_eq
  simp only [mergeTransactions, hm]
  refine ⟨h1, h2, h3, ?_, ?_⟩
  · simp [List.length_mergeSort, hlen]
    omega
  · simp [List.length_mergeSort, hlen]
    omega

/-! ## Claim C7 — the date component of the content hash -/

/-- C7 counterexample: two records identical except for the representation
of the same purchase day — one a structured `Date` for 2024-03-15, the
other the string `"2024-03-15T00:00:00.000Z"` denoting that day (the JSON
serialization of that `Date`) — hash differently, and `mergeTransactions`
does not classify the second as a duplicate of the first: the string
branch of `getTransactionHash` uses `String(purchaseDate)` unchanged, with
no normalization to a calendar-day string. -/
theorem hash_string_date_not_normalized :
    getTransactionHash
        (sampleTx "Coffee Shop" "Restaurants" (.date ⟨2024, 3, 15⟩) none none) ≠
      getTransactionHash
        (sampleTx "Coffee Shop" "Restaurants" (.str "2024-03-15T00:00:00.000Z") none none) ∧
    (mergeTransactions
        [sampleTx "Coffee Shop" "Restaurants" (.date ⟨2024, 3, 15⟩) none none]
        [sampleTx "Coffee Shop" "Restaurants" (.str "2024-03-15T00:00:00.000Z") none none]).duplicates
      = [] := by
  constructor
  · decide
  · decide

/-- C7 as amended: the date component of `getTransactionHash` is the ISO
calendar-day string `YYYY-MM-DD` when the purchase date is a structured
`Date`, but the unchanged string when it is a string; hence two records
identical except that one holds a `Date` and the other holds exactly that
ISO day string of that day hash equally, and `mergeTransactions` treats the
second as a duplicate of the first. -/
theorem hash_date_component (t : Transaction) (d : CalDate)
    (h : t.purchaseDate = .date d) :
    getTransactionHash t =
      getTransactionHash { t with purchaseDate := .str (isoDayStr d) } ∧
    (mergeTransactions [t] [{ t with purchaseDate := .str (isoDayStr d) }]).duplicates =
      [{ t with purchaseDate := .str (isoDayStr d) }] ∧
    (mergeTransactions [t] [{ t with purchaseDate := .str (isoDayStr d) }]).newTransactions =
      [] := by
  have hhash : getTransactionHash t =
      getTransactionHash { t with purchaseDate := .str (isoDayStr d) } := by
    simp [getTransactionHash, h]
  refine ⟨hhash, ?_, ?_⟩ <;>
  · have hmem : getTransactionHash { t with purchaseDate := .str (isoDayStr d) } ∈
        [getTransactionHash t] := List.mem_singleton.mpr hhash.symm
    simp [mergeTransactions, mergeLoop_cons_mem [] hmem, mergeLoop_nil]

/-- Witness for the amended C7 at a concrete transaction and day. -/
theorem hash_date_component_witness :
    getTransactionHash
        (sampleTx "Coffee Shop" "Restaurants" (.date ⟨2024, 3, 15⟩) none none) =
      getTransactionHash
        { sampleTx "Coffee Shop" "Restaurants" (.date ⟨2024, 3, 15⟩) none none with
            purchaseDate := .str (isoDayStr ⟨2024, 3, 15⟩) } :=
  (hash_date_component
    (sampleTx "Coffee Shop" "Restaurants" (.date ⟨2024, 3, 15⟩) none none)
    ⟨2024, 3, 15⟩ rfl).1

/-! ## Claim C4 — budget status tier boundaries -/

/-- C4: for every budget with positive amount, the tier computed by the
`calculateBudgetStatus` row is exactly: "healthy" below 50 percent used,
"early" on [50, 75), "warning" on [75, 100] (so exactly 100 is still
"warning", not "over"), and "over" strictly above 100 — each named tier
inclusive at its lower bound. -/
theorem budget_status_tiers (categorySpending : List (String × ℚ)) (b : Budget)
    (hpos : 0 < b.amount) :
    ((calculateBudgetEntry categorySpending b).status = "healthy" ↔
      (calculateBudgetEntry categorySpending b).percentUsed < 50) ∧
    ((calculateBudgetEntry categorySpending b).status = "early" ↔
      50 ≤ (calculateBudgetEntry categorySpending b).percentUsed ∧
        (calculateBudgetEntry categorySpending b).percentUsed < 75) ∧
    ((calculateBudgetEntry categorySpending b).status = "warning" ↔
      75 ≤ (calculateBudgetEntry categorySpending b).percentUsed ∧
        (calculateBudgetEntry categorySpending b).percentUsed ≤ 100) ∧
    ((calculateBudgetEntry categorySpending b).status = "over" ↔
      100 < (calculateBudgetEntry categorySpending b).percentUsed) := by
  simp only [calculateBudgetEntry]
  split_ifs with h1 h2 h3
  · exact ⟨iff_of_false (by decide) (by intro h; linarith),
      iff_of_false (by decide) (by intro h; linarith [h.2]),
      iff_of_false (by decide) (by intro h; linarith [h.2]),
      iff_of_true rfl h1⟩
  · exact ⟨iff_of_false (by decide) (by intro h; linarith),
      iff_of_false (by decide) (by intro h; linarith [h.2]),
      iff_of_true rfl ⟨h2, by linarith⟩,
      iff_of_false (by decide) h1⟩
  · exact ⟨iff_of_false (by decide) (by intro h; linarith),
      iff_of_true rfl ⟨h3, by linarith⟩,
      iff_of_false (by decide) (by intro h; exact h2 h.1),
      iff_of_false (by decide) h1⟩
  · exact ⟨iff_of_true rfl (by linarith),
      iff_of_false (by decide) (by intro h; exact h3 h.1),
      iff_of_false (by decide) (by intro h; exact h2 h.1),
      iff_of_false (by decide) h1⟩

/-- Witness for C4: a 200-franc "Groceries" budget with 150 spent sits at
exactly 75 percent and is reported as "warning". -/
theorem budget_status_tiers_witness :
    (0 : ℚ) < 200 ∧
    (calculateBudgetEntry [("Groceries", (150 : ℚ))]
        { id := none, category := "Groceries", amount := 200 }).status = "warning" := by
  have h := budget_status_tiers [("Groceries", (150 : ℚ))]
    { id := none, category := "Groceries", amount := 200 } (by norm_num)
  refine ⟨by norm_num, h.2.2.1.mpr ?_⟩
  have hp : (calculateBudgetEntry [("Groceries", (150 : ℚ))]
      { id := none, category := "Groceries", amount := 200 }).percentUsed = 75 := by
    simp [calculateBudgetEntry, spendingLookup, List.lookup]
    norm_num
  rw [hp]
  norm_num

/-! ## Claim C8 — delimiter detection -/

theorem sepCapture_lf (x : Char) (l : List Char) (hx : jsDot x = true) :
    sepCapture ('s' :: 'e' :: 'p' :: '=' :: x :: '\n' :: l) = some (x, l) := by
  simp [sepCapture, hx]

theorem sepCapture_crlf (x : Char) (l : List Char) (hx : jsDot x = true) :
    sepCapture ('s' :: 'e' :: 'p' :: '=' :: x :: '\x0d' :: '\n' :: l) = some (x, l) := by
  have hr : jsDot '\x0d' = false := by decide
  by_cases hxr : x = '\x0d'
  · rw [hxr] at hx; exact absurd hx (by simp [hr])
  · simp [sepCapture, hx]

/-- Counting a non-newline character distributes over `join('\n')`. -/
theorem charCount_joinNl (c : Char) (hc : c ≠ '\n') :
    ∀ ls : List (List Char), charCount c (joinNl ls) = (ls.map (charCount c)).sum := by
  intro ls
  induction ls with
  | nil => rfl
  | cons l t ih =>
    cases t with
    | nil => simp [joinNl, charCount]
    | cons l2 t2 =>
      have : joinNl (l :: l2 :: t2) = l ++ '\n' :: joinNl (l2 :: t2) := rfl
      rw [this]
      simp only [charCount, List.countP_append, List.countP_cons] at *
      have hnl : (decide ('\n' = c)) = false := by
        simp [hc.symm]
      simp [hnl, ih, charCount]

/-- C8: a content beginning with the line `sep=X` followed by a line break
(`\n` or `\r\n`) is parsed with delimiter `X` and has that line stripped,
whatever follows; a content with no `sep=` header uses `;` exactly when
semicolons strictly outnumber commas within its first five lines and `,`
otherwise. -/
theorem delimiter_detection :
    (∀ (x : Char) (rest : String), jsDot x = true →
      detectDelimiter ("sep=" ++ String.mk [x] ++ "\n" ++ rest) = String.mk [x] ∧
      removeSepHeader ("sep=" ++ String.mk [x] ++ "\n" ++ rest) = rest ∧
      detectDelimiter ("sep=" ++ String.mk [x] ++ "\x0d\n" ++ rest) = String.mk [x] ∧
      removeSepHeader ("sep=" ++ String.mk [x] ++ "\x0d\n" ++ rest) = rest) ∧
    (∀ content : String, sepCapture content.toList = none →
      detectDelimiter content =
        if (((splitNl content.toList).take 5).map (charCount ',')).sum <
            (((splitNl content.toList).take 5).map (charCount ';')).sum
        then ";" else ",") := by
  constructor
  · intro x rest hx
    have hlist : ("sep=" ++ String.mk [x] ++ "\n" ++ rest).toList =
        's' :: 'e' :: 'p' :: '=' :: x :: '\n' :: rest.toList := by
      simp [String.toList]
    have hlist2 : ("sep=" ++ String.mk [x] ++ "\x0d\n" ++ rest).toList =
        's' :: 'e' :: 'p' :: '=' :: x :: '\x0d' :: '\n' :: rest.toList := by
      simp [String.toList]
    refine ⟨?_, ?_, ?_, ?_⟩
    · simp [detectDelimiter, hlist, sepCapture_lf x _ hx]
    · simp [removeSepHeader, hlist, sepCapture_lf x _ hx]
    · simp [detectDelimiter, hlist2, sepCapture_crlf x _ hx]
    · simp [removeSepHeader, hlist2, sepCapture_crlf x _ hx]
  · intro content h
    simp only [detectDelimiter, h]
    rw [charCount_joinNl ';' (by decide), charCount_joinNl ',' (by decide)]

/-- Witness for C8 at concrete inputs: an explicit `sep=;` header wins over
the comma-heavy body and is stripped; without a header, `;` wins exactly
when semicolons outnumber commas in the sample. -/
theorem delimiter_detection_witness :
    detectDelimiter "sep=;\na,b,c" = ";" ∧
    removeSepHeader "sep=;\na,b,c" = "a,b,c" ∧
    detectDelimiter "a;b;c\nd;e" = ";" ∧
    detectDelimiter "a,b\nc;d" = "," := by
  obtain ⟨h1, h2, -, -⟩ := delimiter_detection.1 ';' "a,b,c" (by decide)
  refine ⟨h1, h2, ?_, ?_⟩
  · exact (delimiter_detection.2 "a;b;c\nd;e" (by decide)).trans (by decide)
  · exact (delimiter_detection.2 "a,b\nc;d" (by decide)).trans (by decide)

/-! ## Claim C3 — categorization precedence -/

/-- C3: without a manual override, a crypto-exchange keyword in the booking
text wins outright (even when the sector has an exact table entry such as
`"Restaurants"`), and when no crypto keyword matches, the exact sector
entry `"Restaurants"` wins over every booking-text fallback (even a text
containing `"UBER EATS"`). -/
theorem categorize_precedence (t : Transaction) (hov : t.manualCategory = none) :
    (cryptoKeywordHit t.bookingText = true →
      categorizeTransaction t = "Crypto & Investments") ∧
    (cryptoKeywordHit t.bookingText = false → jsTrim t.sector = "Restaurants" →
      categorizeTransaction t = "Restaurants & Dining") := by
  constructor
  · intro hc
    simp [categorizeTransaction, hov, categorizeAuto, hc]
  · intro hc hs
    have hlook : SECTOR_CATEGORY_MAP.lookup "Restaurants" = some "Restaurants & Dining" := by
      decide
    have hauto : categorizeTransaction t = categorizeAuto t := by
      rw [categorizeTransaction, hov]
    rw [hauto]
    simp only [categorizeAuto, hc, hs, hlook]
    decide

/-- Witness for C3: `"COINBASE Purchase"` with sector `"Restaurants"` is
crypto; `"UBER EATS ZURICH"` with sector `"Restaurants"` is dining. -/
theorem categorize_precedence_witness :
    categorizeTransaction
        (sampleTx "COINBASE Purchase" "Restaurants" (.date ⟨2024, 1, 2⟩) (some 20) none) =
      "Crypto & Investments" ∧
    categorizeTransaction
        (sampleTx "UBER EATS ZURICH" "Restaurants" (.date ⟨2024, 1, 2⟩) (some 20) none) =
      "Restaurants & Dining" :=
  ⟨(categorize_precedence
      (sampleTx "COINBASE Purchase" "Restaurants" (.date ⟨2024, 1, 2⟩) (some 20) none)
      rfl).1 (by decide),
   (categorize_precedence
      (sampleTx "UBER EATS ZURICH" "Restaurants" (.date ⟨2024, 1, 2⟩) (some 20) none)
      rfl).2 (by decide) (by decide)⟩

/-! ## Claim C5 — categorization totality over the fixed vocabulary -/

theorem lookup_mem_snd (l : List (String × String)) (k v : String)
    (h : l.lookup k = some v) : v ∈ l.map Prod.snd := by
  induction l with
  | nil => simp [List.lookup] at h
  | cons p rest ih =>
    rw [List.lookup] at h
    by_cases hk : k == p.1
    · rw [hk] at h
      simp at h
      simp [h]
    · rw [Bool.not_eq_true] at hk
      rw [hk] at h
      exact List.mem_cons_of_mem _ (ih h)

theorem sector_map_values_in_CATEGORIES :
    ∀ v ∈ SECTOR_CATEGORY_MAP.map Prod.snd, v ∈ CATEGORIES := by
  decide

theorem mem_ite_of_mem {c : Prop} [Decidable c] {a b : String} {S : List String}
    (ha : a ∈ S) (hb : b ∈ S) : (if c then a else b) ∈ S := by
  split
  · exact ha
  · exact hb

theorem keywordRules_mem (text sector upperSector : String) :
    keywordRules text sector upperSector ∈ CATEGORIES := by
  unfold keywordRules
  repeat apply mem_ite_of_mem (by decide)
  decide

theorem categorizeAuto_mem (t : Transaction) : categorizeAuto t ∈ CATEGORIES := by
  unfold categorizeAuto
  dsimp only
  split
  · decide
  · split
    · rename_i c heq
      exact sector_map_values_in_CATEGORIES c (lookup_mem_snd _ _ _ heq)
    · exact keywordRules_mem _ _ _

/-- C5 counterexample: `categorizeTransaction` returns a manual override
verbatim, so a transaction carrying an override outside the fixed
vocabulary is mapped outside the vocabulary. -/
theorem categorize_override_escapes_vocabulary :
    categorizeTransaction
        (sampleTx "Migros" "Grocery stores" (.date ⟨2024, 1, 2⟩) (some 20) none
          (some "Not A Category")) ∉ CATEGORIES := by
  decide

/-- C5 as amended: for every transaction whose manual override — when
present and non-empty — is itself one of the `CATEGORIES` entries (in
particular, for every transaction without an override), the categorizer
returns a non-empty string in the fixed `CATEGORIES` vocabulary. -/
theorem categorize_total (t : Transaction)
    (h : ∀ c, t.manualCategory = some c → c ≠ "" → c ∈ CATEGORIES) :
    categorizeTransaction t ∈ CATEGORIES ∧ categorizeTransaction t ≠ "" := by
  have hne : ∀ s ∈ CATEGORIES, s ≠ "" := by decide
  have hmem : categorizeTransaction t ∈ CATEGORIES := by
    rw [categorizeTransaction]
    cases hov : t.manualCategory with
    | none => exact categorizeAuto_mem t
    | some c =>
      by_cases hc : c = ""
      · simp [hc, categorizeAuto_mem t]
      · simp [hc]
        exact h c hov hc
  exact ⟨hmem, hne _ hmem⟩

/-- Witness for the amended C5 at a transaction without an override. -/
theorem categorize_total_witness :
    categorizeTransaction
        (sampleTx "Random Vendor 123" "Unknown Sector" (.date ⟨2024, 1, 2⟩)
          (some 20) none) ∈ CATEGORIES ∧
    categorizeTransaction
        (sampleTx "Random Vendor 123" "Unknown Sector" (.date ⟨2024, 1, 2⟩)
          (some 20) none) ≠ "" :=
  categorize_total
    (sampleTx "Random Vendor 123" "Unknown Sector" (.date ⟨2024, 1, 2⟩) (some 20) none)
    (fun _ hc _ => Option.noConfusion hc)

/-! ## Claim C6 — category percentages -/

theorem sum_groupInsert (acc : List (String × List Transaction)) (key : String)
    (t : Transaction) :
    ((groupInsert acc key t).map (fun g => (g.2.map (fun u => orZero u.debit)).sum)).sum =
      (acc.map (fun g => (g.2.map (fun u => orZero u.debit)).sum)).sum + orZero t.debit := by
  induction acc with
  | nil => simp [groupInsert]
  | cons p rest ih =>
    rw [groupInsert]
    by_cases hk : p.1 = key
    · simp [hk, List.sum_append]
      ring
    · simp [hk, ih]
      ring

theorem sum_groupByCategory_aux (ts : List Transaction) :
    ∀ acc : List (String × List Transaction),
      ((ts.foldl (fun acc t => groupInsert acc (categorizeTransaction t) t) acc).map
          (fun g => (g.2.map (fun u => orZero u.debit)).sum)).sum =
        (acc.map (fun g => (g.2.map (fun u => orZero u.debit)).sum)).sum +
          (ts.map (fun u => orZero u.debit)).sum := by
  induction ts with
  | nil => intro acc; simp
  | cons t rest ih =>
    intro acc
    rw [List.foldl_cons, ih, sum_groupInsert]
    simp
    ring

/-- Grouping by category preserves the summed debits. -/
theorem sum_groupByCategory (ts : List Transaction) :
    ((groupByCategory ts).map (fun g => (g.2.map (fun u => orZero u.debit)).sum)).sum =
      (ts.map (fun u => orZero u.debit)).sum := by
  rw [groupByCategory, sum_groupByCategory_aux ts []]
  simp

/-- With at least one positive-debit transaction, the summed debits of the
expense sublist are positive. -/
theorem expenses_debit_sum_pos (transactions : List Transaction)
    (h : ∃ t ∈ transactions, 0 < orZero t.debit) :
    0 < ((expensesOf transactions).map (fun u => orZero u.debit)).sum := by
  obtain ⟨t, ht, hpos⟩ := h
  have htmem : t ∈ expensesOf transactions := by
    rw [expensesOf, List.mem_filter]
    exact ⟨ht, by simpa using hpos⟩
  apply List.sum_pos
  · intro x hx
    obtain ⟨u, hu, rfl⟩ := List.mem_map.mp hx
    have := List.of_mem_filter hu
    simpa using this
  · simp only [ne_eq, List.map_eq_nil_iff]
    intro hnil
    rw [hnil] at htmem
    exact List.not_mem_nil t htmem

/-- C6: in the `analyzeExpenses` category summaries, every percentage is
the category total divided by the sum of the listed category totals
times 100, and — whenever at least one transaction has a positive debit —
the listed percentages sum to exactly 100. -/
theorem category_percentages (transactions : List Transaction)
    (h : ∃ t ∈ transactions, 0 < orZero t.debit) :
    (∀ s ∈ categorySummariesOf transactions,
        s.percentage =
          s.totalSpent /
            ((categorySummariesOf transactions).map CategorySummary.totalSpent).sum * 100) ∧
    ((categorySummariesOf transactions).map CategorySummary.percentage).sum = 100 := by
  set sorted := ((groupByCategory (expensesOf transactions)).map initialSummary).mergeSort
    (fun a b => b.totalSpent ≤ a.totalSpent) with hsortdef
  set T := (sorted.map CategorySummary.totalSpent).sum with hTdef
  have hdef : categorySummariesOf transactions =
      sorted.map (fun c =>
        { c with percentage := if 0 < T then c.totalSpent / T * 100 else 0 }) := rfl
  have hperm : (sorted.map CategorySummary.totalSpent).Perm
      (((groupByCategory (expensesOf transactions)).map initialSummary).map
        CategorySummary.totalSpent) :=
    (List.mergeSort_perm _ _).map _
  have hT1 : T = ((expensesOf transactions).map (fun u => orZero u.debit)).sum := by
    rw [hTdef, hperm.sum_eq, List.map_map]
    have hcomp : (CategorySummary.totalSpent ∘ initialSummary) =
        fun g : String × List Transaction => (g.2.map (fun u => orZero u.debit)).sum := rfl
    rw [hcomp, sum_groupByCategory]
  have hTpos : 0 < T := hT1 ▸ expenses_debit_sum_pos transactions h
  have hfinal_tot : (categorySummariesOf transactions).map CategorySummary.totalSpent =
      sorted.map CategorySummary.totalSpent := by
    rw [hdef, List.map_map]
    rfl
  have hTfinal : ((categorySummariesOf transactions).map CategorySummary.totalSpent).sum = T := by
    rw [hfinal_tot, hTdef]
  constructor
  · intro s hs
    rw [hdef] at hs
    obtain ⟨c, _, rfl⟩ := List.mem_map.mp hs
    rw [hTfinal]
    simp [if_pos hTpos]
  · rw [hdef, List.map_map]
    have hfun : (CategorySummary.percentage ∘ fun c =>
        { c with percentage := if 0 < T then c.totalSpent / T * 100 else 0 }) =
        fun c : CategorySummary => c.totalSpent * (100 / T) := by
      funext c
      simp only [Function.comp]
      rw [if_pos hTpos]
      ring
    rw [hfun, List.sum_map_mul_right, ← hTdef]
    have hne : T ≠ 0 := ne_of_gt hTpos
    field_simp

/-- Witness for C6: a single 50-franc crypto expense yields percentages
summing to exactly 100. -/
theorem category_percentages_witness :
    ((categorySummariesOf
        [sampleTx "COINBASE" "" (.date ⟨2024, 1, 2⟩) (some 50) none]).map
      CategorySummary.percentage).sum = 100 :=
  (category_percentages [sampleTx "COINBASE" "" (.date ⟨2024, 1, 2⟩) (some 50) none]
    ⟨sampleTx "COINBASE" "" (.date ⟨2024, 1, 2⟩) (some 50) none,
      List.mem_singleton.mpr rfl, by norm_num [sampleTx, orZero]⟩).2

/-! ## Claims C1 and C9 — the crypto vault -/

theorem char_toNat_ofNat {n : Nat} (hn : n < 256) : (Char.ofNat n).toNat = n := by
  have h : n.isValidChar := Or.inl (by omega)
  simp [Char.ofNat, h, Char.ofNatAux, Char.toNat, UInt32.toNat]

/-- Every character of a binary string built from bytes has a code below
256 (the precondition under which `atob` inverts `btoa`). -/
theorem binary_chars_lt (bs : List Byte) :
    ∀ c ∈ (binaryStringOfBytes bs).toList, c.toNat < 256 := by
  intro c hc
  rw [binaryStringOfBytes] at hc
  simp only [String.toList] at hc
  obtain ⟨b, _, rfl⟩ := List.mem_map.mp hc
  rw [char_toNat_ofNat b.isLt]
  exact b.isLt

/-- Reading the binary string of a byte list gives back the bytes. -/
theorem bytes_binary_roundtrip (bs : List Byte) :
    bytesOfBinaryString (binaryStringOfBytes bs) = bs := by
  rw [bytesOfBinaryString, binaryStringOfBytes]
  simp only [String.toList, List.map_map]
  have : ((fun c : Char => (⟨c.toNat % 256, Nat.mod_lt _ (by norm_num)⟩ : Byte)) ∘
      fun b : Byte => Char.ofNat b.val) = id := by
    funext b
    simp only [Function.comp, id]
    apply Fin.ext
    simp [char_toNat_ofNat b.isLt, Nat.mod_eq_of_lt b.isLt]
  rw [this, List.map_id]

/-- C1: under the platform contracts — AES-GCM decryption inverts
encryption for the same key and IV, `atob` inverts `btoa` on binary
strings, and UTF-8 decoding inverts encoding — decrypting the envelope
produced by `encryptData` with the same password returns exactly the
original plaintext, for every plaintext, password, salt and IV. -/
theorem encrypt_decrypt_roundtrip (P : CryptoPrims)
    (hAead : ∀ key iv m, P.aesGcmDecrypt key iv (P.aesGcmEncrypt key iv m) = some m)
    (hB64 : ∀ s : String, (∀ c ∈ s.toList, c.toNat < 256) → P.atobFn (P.btoaFn s) = s)
    (hUtf8 : ∀ s : String, P.utf8Decode (P.utf8Encode s) = s)
    (plaintext password : String) (salt iv : List Byte) :
    decryptData P (encryptData P salt iv plaintext password) password = .ok plaintext := by
  have hb64 : ∀ bs : List Byte, base64ToArrayBuffer P (arrayBufferToBase64 P bs) = bs := by
    intro bs
    rw [arrayBufferToBase64, base64ToArrayBuffer, hB64 _ (binary_chars_lt bs),
      bytes_binary_roundtrip]
  simp only [encryptData, decryptData, hb64, hAead, hUtf8, ne_eq]
  simp

/-- Witness for C1: the contracts are satisfiable — with the identity
cipher and codecs of `trivialPrims`, a concrete round trip decrypts to the
original plaintext. -/
theorem encrypt_decrypt_roundtrip_witness :
    decryptData trivialPrims
        (encryptData trivialPrims [⟨7, by norm_num⟩] [⟨9, by norm_num⟩] "backup data" "hunter2")
        "hunter2" = .ok "backup data" := by
  have hdec : ∀ s : String, trivialPrims.utf8Decode (trivialPrims.utf8Encode s) = s := by
    intro s
    show decode3 (encode3 s) = s
    rw [encode3, decode3]
    have h : ∀ cs : List Char,
        decode3Aux (cs.flatMap (fun c =>
          [ (⟨c.toNat / 65536 % 256, Nat.mod_lt _ (by norm_num)⟩ : Byte)
          , (⟨c.toNat / 256 % 256, Nat.mod_lt _ (by norm_num)⟩ : Byte)
          , (⟨c.toNat % 256, Nat.mod_lt _ (by norm_num)⟩ : Byte) ])) = cs := by
      intro cs
      induction cs with
      | nil => rfl
      | cons c rest ih =>
        rw [List.flatMap_cons, List.cons_append, List.cons_append, List.cons_append,
          List.nil_append, decode3Aux, ih]
        have hlt : c.toNat < 16777216 := by
          rcases c.valid with hv | ⟨_, hv⟩
          · exact Nat.lt_trans hv (by norm_num)
          · exact Nat.lt_trans hv (by norm_num)
        have hdigits : c.toNat / 65536 % 256 * 65536 + c.toNat / 256 % 256 * 256 +
            c.toNat % 256 = c.toNat := by omega
        rw [hdigits, Char.ofNat_toNat]
    rw [h]
    rfl
  exact encrypt_decrypt_roundtrip trivialPrims (fun _ _ _ => rfl) (fun _ _ => rfl) hdec
    "backup data" "hunter2" [⟨7, by norm_num⟩] [⟨9, by norm_num⟩]

/-- C9: for every envelope whose version is not 1, `decryptData` fails
with the "Unsupported backup version" error — an outcome independent of
the password and of every cryptographic primitive (no key derivation or
decryption can influence it), and distinct from the generic
incorrect-password error. -/
theorem version_gate (env : EncryptedData) (hv : env.version ≠ 1) :
    ∀ (P P₂ : CryptoPrims) (pw pw₂ : String),
      decryptData P env pw = .error "Unsupported backup version" ∧
      decryptData P env pw = decryptData P₂ env pw₂ := by
  intro P P₂ pw pw₂
  constructor
  · simp [decryptData, hv]
  · simp [decryptData, hv]

/-- Witness for C9 at a concrete version-999 envelope. -/
theorem version_gate_witness :
    decryptData trivialPrims
        { version := 999, salt := "", iv := "", data := "", checksum := "" } "pw" =
      .error "Unsupported backup version" :=
  (version_gate { version := 999, salt := "", iv := "", data := "", checksum := "" }
    (by decide) trivialPrims trivialPrims "pw" "pw").1
